import Mathlib

/-!
Verification development for the `equatio` matching game.

The data model (`Term`, `Equation`, `EquationSet`) is translated from
`src/equatio/term.py`, `src/equatio/equation.py` and
`src/equatio/equation_set.py`; the placement engine (drag-and-drop state
machine and the check-button submission) is translated from
`src/equatio/draggable_term.py` and the main loop of `src/equatio/main.py`.

Python's `sorted(..., key=f)` is a stable sort by the key `f`, where string
keys compare lexicographically by code points.  It is modelled by
`List.insertionSort` (which is stable in the same sense: ties keep their
original relative order) over the relation `keyLe f`, built from an explicit
lexicographic comparison `strLeb` on the strings' character lists.

The sprite machinery (`sprite_id`, matplotlib rendering, file paths) is pure
asset I/O: `sprite_id` takes no part in any equality or game logic, so `Term`
is modelled without it.  Likewise the pygame drawing code is omitted; only
the state transitions on the grid/slot occupancy and the token states are
modelled.
-/

namespace Equatio

/-- Lexicographic comparison of character lists (`as ≤ bs`), ordering
characters by code point as Python string comparison does. -/
def charListLeb : List Char → List Char → Bool
  | [], _ => true
  | _ :: _, [] => false
  | a :: as, b :: bs => if a < b then true else if b < a then false else charListLeb as bs

/-- Lexicographic string comparison `s ≤ t`, the order used by Python's
`sorted` on string keys. -/
def strLeb (s t : String) : Bool :=
  charListLeb s.data t.data

/-- Ordering by a string-valued key, as used by every `sorted(..., key=...)`
call in the source. -/
def keyLe {α : Type} (key : α → String) : α → α → Prop :=
  fun a b => strLeb (key a) (key b) = true

instance {α : Type} (key : α → String) : DecidableRel (keyLe key) :=
  fun a b => inferInstanceAs (Decidable (strLeb (key a) (key b) = true))

/-- A term (`Term` in `term.py` / `equation.py`): display name, LaTeX code and
sign.  The derived `sprite_id` is omitted (it is a pure asset-cache key,
excluded from `Term.__eq__`). -/
structure Term where
  name : String
  latex_code : String
  sign : String
deriving DecidableEq, Repr

/-- `Term.__eq__`: equality on `sign` and `latex_code` only. -/
def termEq (t u : Term) : Bool :=
  t.sign == u.sign && t.latex_code == u.latex_code

/-- The sentinel zero term `ZEREO_TERM = Term("0", "0", "+")` from
`Equation.__init__`. -/
def ZEREO_TERM : Term := ⟨"0", "0", "+"⟩

/-- The sort key used for term lists: `key=lambda t: t.latex_code`. -/
abbrev termLe := keyLe Term.latex_code

/-- The body of `Equation.__init__` for one side:
`sorted(side or [ZEREO_TERM], key=lambda t: t.latex_code)`. -/
def sortSide (l : List Term) : List Term :=
  List.insertionSort termLe (match l with | [] => [ZEREO_TERM] | _ => l)

/-- An equation (`Equation` in `equation.py`). -/
structure Equation where
  name : String
  left : List Term
  right : List Term
deriving DecidableEq, Repr

/-- `Equation.__init__`: empty sides default to `[ZEREO_TERM]`, and each side
is (stably) sorted by `latex_code`. -/
def mkEquation (name : String) (left right : List Term) : Equation :=
  ⟨name, sortSide left, sortSide right⟩

/-- Python list equality `l1 == l2`: same length and element-wise `__eq__`. -/
def listEqBy {α : Type} (f : α → α → Bool) : List α → List α → Bool
  | [], [] => true
  | a :: as, b :: bs => f a b && listEqBy f as bs
  | _ :: _, [] => false
  | [], _ :: _ => false

/-- `Equation.__eq__`: element-wise term equality of both (already sorted)
sides; the name is ignored. -/
def equationBEq (e f : Equation) : Bool :=
  listEqBy termEq e.left f.left && listEqBy termEq e.right f.right

/-- `Equation._check_side`: lengths match and the stably sorted test side is
element-wise `Term.__eq__`-equal to the stored side. -/
def check_side (self_side test_side : List Term) : Bool :=
  self_side.length == test_side.length &&
    ((self_side.zip (List.insertionSort termLe test_side)).all fun p => termEq p.1 p.2)

/-- `Equation.check_input`. -/
def check_input (e : Equation) (test_left test_right : List Term) : Bool :=
  check_side e.left test_left && check_side e.right test_right

/-- `Equation.all_terms`. -/
def Equation.all_terms (e : Equation) : List Term :=
  e.left ++ e.right

/-- The dictionary produced by `Term.as_dict` / consumed by `Term.from_dict`
(the `sign` key may be absent on import, hence `Option`). -/
structure TermDict where
  name : String
  sign : Option String
  latex_code : String
deriving DecidableEq, Repr

/-- `Term.as_dict`. -/
def Term.as_dict (t : Term) : TermDict :=
  ⟨t.name, some t.sign, t.latex_code⟩

/-- `Term.from_dict`: the sign defaults to `"+"` when the key is absent. -/
def Term.from_dict (d : TermDict) : Term :=
  ⟨d.name, d.latex_code, d.sign.getD "+"⟩

/-- The dictionary produced by `Equation.as_dict`. -/
structure EquationDict where
  name : String
  left : List TermDict
  right : List TermDict
deriving DecidableEq, Repr

/-- `Equation.as_dict`. -/
def Equation.as_dict (e : Equation) : EquationDict :=
  ⟨e.name, e.left.map Term.as_dict, e.right.map Term.as_dict⟩

/-- `Equation.from_dict`: rebuild the equation through the constructor (which
re-sorts each side). -/
def Equation.from_dict (d : EquationDict) : Equation :=
  mkEquation d.name (d.left.map Term.from_dict) (d.right.map Term.from_dict)

/-- Insertion of `e` after every element that compares `≤ e`: the position a
stable sort gives to a newly appended element. -/
def insertTail {α : Type} (r : α → α → Prop) [DecidableRel r] (e : α) : List α → List α
  | [] => [e]
  | x :: xs => if r x e then x :: insertTail r e xs else e :: x :: xs

/-- An equation set (`EquationSet` in `equation_set.py`). -/
structure EquationSet where
  name : String
  equations : List Equation
deriving DecidableEq, Repr

/-- The sort key for equation lists: `key=lambda equ: equ.name`. -/
abbrev eqNameLe := keyLe Equation.name

/-- The deduplication loop of `EquationSet.__init__`: keep each equation only
if no previously kept one is `Equation.__eq__`-equal to it. -/
def dedupAux (acc : List Equation) : List Equation → List Equation
  | [] => acc
  | e :: es =>
    if acc.any (fun x => equationBEq x e) then dedupAux acc es
    else dedupAux (acc ++ [e]) es

/-- `EquationSet.__init__`: deduplicate, then sort by equation name. -/
def mkEquationSet (equations : List Equation) (name : String) : EquationSet :=
  ⟨name, List.insertionSort eqNameLe (dedupAux [] equations)⟩

/-- `EquationSet.add_equation`: no-op if an equal equation is present,
otherwise append and re-sort by name. -/
def add_equation (s : EquationSet) (e : Equation) : EquationSet :=
  if s.equations.any (fun x => equationBEq x e) then s
  else { s with equations := List.insertionSort eqNameLe (s.equations ++ [e]) }

/-- Python `list.remove`: drop the first element `__eq__`-equal to `e`. -/
def removeFirstEq (e : Equation) : List Equation → List Equation
  | [] => []
  | x :: xs => if equationBEq x e then xs else x :: removeFirstEq e xs

/-- `EquationSet.remove_equation`: `none` models the `ValueError` raised when
no equal equation is present. -/
def remove_equation (s : EquationSet) (e : Equation) : Option EquationSet :=
  if s.equations.any (fun x => equationBEq x e) then
    some { s with equations := removeFirstEq e s.equations }
  else none

/-- `EquationSet.__eq__`: element-wise equation equality; both set names and
the equations' names are ignored by the comparison itself. -/
def setEq (s t : EquationSet) : Bool :=
  listEqBy equationBEq s.equations t.equations

/-- Plain string ordering, for `sorted([...])` on lists of LaTeX codes. -/
abbrev strLe := keyLe (id : String → String)

/-- The check-button validation loop from `main.py` (lines 261-276): compare
the sorted lists of `latex_code` strings of the submitted sides against each
equation's sides, in either orientation. -/
def mainCheck (es : EquationSet) (left_terms right_terms : List Term) : Bool :=
  let left_codes := List.insertionSort strLe (left_terms.map Term.latex_code)
  let right_codes := List.insertionSort strLe (right_terms.map Term.latex_code)
  es.equations.any fun eq =>
    (left_codes == eq.left.map Term.latex_code &&
      right_codes == eq.right.map Term.latex_code) ||
    (left_codes == eq.right.map Term.latex_code &&
      right_codes == eq.left.map Term.latex_code)

/-- The `check_input`-based reference validation: some equation of the set
accepts the submitted sides in either orientation. -/
def refCheck (es : EquationSet) (L R : List Term) : Bool :=
  es.equations.any fun eq => check_input eq L R || check_input eq R L

/-! The placement engine: `DraggableTerm.handle_event` and the relevant parts
of the `main` loop, with pygame rects and events as explicit data.  Token
objects are identified by their index in a fixed token list; `grid` and
`slots` store token indices, exactly as the Python containers store the token
objects themselves. -/

/-- A screen point. -/
abbrev Pt := Int × Int

/-- A `pygame.Rect`. -/
structure Rect where
  x : Int
  y : Int
  w : Int
  h : Int
deriving DecidableEq, Repr

/-- `pygame.Rect.collidepoint`: the right and bottom edges are outside. -/
def Rect.collidepoint (r : Rect) (p : Pt) : Bool :=
  decide (r.x ≤ p.1) && decide (p.1 < r.x + r.w) &&
    decide (r.y ≤ p.2) && decide (p.2 < r.y + r.h)

/-- `pygame.Rect.center`. -/
def Rect.center (r : Rect) : Pt :=
  (r.x + r.w / 2, r.y + r.h / 2)

/-- Assigning `rect.center = c`: move the rect, keeping its size. -/
def Rect.setCenter (r : Rect) (c : Pt) : Rect :=
  { r with x := c.1 - r.w / 2, y := c.2 - r.h / 2 }

/-- A container key: `pos_key` is a `(row, col)` pair for grid cells and a
plain index for equation-bar slots. -/
inductive Key where
  | cell : Nat → Nat → Key
  | slot : Nat → Key
deriving DecidableEq, Repr

/-- The mutable state of one `DraggableTerm`. -/
structure TokenState where
  term : Term
  rect : Rect
  pos_key : Key
  container : String
  origin_key : Key
  origin_rect : Rect
  origin_container : String
  dragging : Bool
  mouse_offset : Pt
deriving DecidableEq, Repr

/-- The shared containers of the main loop: the grid rows, the slot list, the
token states (indexed by token id) and `draggable_terms` as a list of token
ids in iteration order. -/
structure EngineState where
  grid : List (List (Option Nat))
  slots : List (Option Nat)
  toks : List TokenState
  inPlay : List Nat
deriving DecidableEq, Repr

/-- `grid[r][c]`. -/
def gridGet (g : List (List (Option Nat))) (r c : Nat) : Option Nat :=
  (g.getD r []).getD c none

/-- `grid[r][c] = v`. -/
def gridSet (g : List (List (Option Nat))) (r c : Nat) (v : Option Nat) :
    List (List (Option Nat)) :=
  g.set r ((g.getD r []).set c v)

/-- The pygame input events relevant to the engine. -/
inductive Event where
  | down : Pt → Event
  | up : Pt → Event
  | move : Pt → Event
deriving DecidableEq, Repr

/-- `DraggableTerm.handle_event` for the token with id `i`:
`MOUSEBUTTONDOWN` captures when the token's rect contains the point and
vacates its container; `MOUSEBUTTONUP` (while dragging) scans the grid cells,
then the slots, committing to the first empty container containing the drop
point, else rolls back to the origin; `MOUSEMOTION` (while dragging) tracks
the pointer with the stored offset. -/
def handle_event (ev : Event) (i : Nat) (cellRects : List ((Nat × Nat) × Rect))
    (slotRects : List Rect) (s : EngineState) : EngineState :=
  match s.toks.get? i with
  | none => s
  | some t =>
    match ev with
    | .down p =>
      if t.rect.collidepoint p then
        let t' := { t with dragging := true,
                           mouse_offset := (t.rect.x - p.1, t.rect.y - p.2) }
        let s' := { s with toks := s.toks.set i t' }
        if t.container = "grid" then
          match t.pos_key with
          | .cell r c => { s' with grid := gridSet s'.grid r c none }
          | .slot _ => s'
        else if t.container = "slot" then
          match t.pos_key with
          | .slot j => { s' with slots := s'.slots.set j none }
          | .cell _ _ => s'
        else s'
      else s
    | .up p =>
      if t.dragging then
        match cellRects.find?
            (fun cr => cr.2.collidepoint p && (gridGet s.grid cr.1.1 cr.1.2 == none)) with
        | some cr =>
          let t' := { t with dragging := false, container := "grid",
                             pos_key := Key.cell cr.1.1 cr.1.2,
                             rect := t.rect.setCenter cr.2.center,
                             origin_key := Key.cell cr.1.1 cr.1.2,
                             origin_rect := cr.2, origin_container := "grid" }
          { s with toks := s.toks.set i t',
                   grid := gridSet s.grid cr.1.1 cr.1.2 (some i) }
        | none =>
          match slotRects.enum.find?
              (fun sr => sr.2.collidepoint p && (s.slots.getD sr.1 none == none)) with
          | some sr =>
            let t' := { t with dragging := false, container := "slot",
                               pos_key := Key.slot sr.1,
                               rect := t.rect.setCenter sr.2.center,
                               origin_key := Key.slot sr.1,
                               origin_rect := sr.2, origin_container := "slot" }
            { s with toks := s.toks.set i t',
                     slots := s.slots.set sr.1 (some i) }
          | none =>
            let t' := { t with dragging := false, pos_key := t.origin_key,
                               rect := t.rect.setCenter t.origin_rect.center,
                               container := t.origin_container }
            let s' := { s with toks := s.toks.set i t' }
            if t'.container = "grid" then
              match t'.pos_key with
              | .cell r c => { s' with grid := gridSet s'.grid r c (some i) }
              | .slot _ => s'
            else
              match t'.pos_key with
              | .slot j => { s' with slots := s'.slots.set j (some i) }
              | .cell _ _ => s'
      else s
    | .move p =>
      if t.dragging then
        let t' := { t with rect := { t.rect with x := p.1 + t.mouse_offset.1,
                                                 y := p.2 + t.mouse_offset.2 } }
        { s with toks := s.toks.set i t' }
      else s

/-- The per-event token loop of the main loop
(`for dt in draggable_terms: dt.handle_event(...)`). -/
def tokensHandle (ev : Event) (cellRects : List ((Nat × Nat) × Rect))
    (slotRects : List Rect) (s : EngineState) : EngineState :=
  s.inPlay.foldl (fun st i => handle_event ev i cellRects slotRects st) s

/-- The check-button submission of the main loop (lines 259-313): collect the
slot occupants' terms, validate with `mainCheck`; on success remove the used
tokens from play and clear the slots; on failure move each slot token back to
its origin grid cell (or the first free grid cell when its recorded origin is
a slot) and clear its slot.  Neither failure branch updates the token's
`origin_*` fields. -/
def checkSubmission (es : EquationSet) (cellRects : List ((Nat × Nat) × Rect))
    (s : EngineState) : EngineState :=
  let left_terms := (List.range 4).filterMap fun j =>
    (s.slots.getD j none).bind fun id => (s.toks.get? id).map TokenState.term
  let right_terms := (List.range 4).filterMap fun j =>
    (s.slots.getD (4 + j) none).bind fun id => (s.toks.get? id).map TokenState.term
  let correct := mainCheck es left_terms right_terms
  if correct then
    let usedIds := s.slots.filterMap id
    { s with inPlay := usedIds.foldl (fun l id => l.erase id) s.inPlay,
             slots := s.slots.map fun _ => none }
  else
    (List.range s.slots.length).foldl (fun st j =>
      match st.slots.getD j none with
      | none => st
      | some tid =>
        match st.toks.get? tid with
        | none => { st with slots := st.slots.set j none }
        | some t =>
          let st' :=
            if t.origin_container = "grid" then
              match t.origin_key with
              | Key.cell r c =>
                let t' := { t with pos_key := Key.cell r c,
                                   rect := t.rect.setCenter t.origin_rect.center,
                                   container := "grid" }
                { st with toks := st.toks.set tid t',
                          grid := gridSet st.grid r c (some tid) }
              | Key.slot _ => st
            else
              match cellRects.find? (fun cr => gridGet st.grid cr.1.1 cr.1.2 == none) with
              | some cr =>
                let t' := { t with pos_key := Key.cell cr.1.1 cr.1.2,
                                   rect := t.rect.setCenter cr.2.center,
                                   container := "grid" }
                { st with toks := st.toks.set tid t',
                          grid := gridSet st.grid cr.1.1 cr.1.2 (some tid) }
              | none => st
          { st' with slots := st'.slots.set j none }) s

/-- One main-loop event dispatch: a pointer-down on the check button first
runs the submission, and then (like every event) the event is passed to every
token in play. -/
def mainStep (es : EquationSet) (cellRects : List ((Nat × Nat) × Rect))
    (slotRects : List Rect) (checkButton : Rect) (s : EngineState) (ev : Event) :
    EngineState :=
  match ev with
  | .down p =>
    tokensHandle ev cellRects slotRects
      (if checkButton.collidepoint p then checkSubmission es cellRects s else s)
  | _ => tokensHandle ev cellRects slotRects s

/-- Process a list of events through the main loop. -/
def runEvents (es : EquationSet) (cellRects : List ((Nat × Nat) × Rect))
    (slotRects : List Rect) (checkButton : Rect) (s : EngineState)
    (evs : List Event) : EngineState :=
  evs.foldl (mainStep es cellRects slotRects checkButton) s

/-- Emptiness of a container in the current occupancy maps. -/
def containerEmpty (grid : List (List (Option Nat))) (slots : List (Option Nat)) :
    Key → Bool
  | Key.cell r c => gridGet grid r c == none
  | Key.slot j => slots.getD j none == none

/-- All containers with their rectangles, grid cells first, then slots, in
the source's iteration order. -/
def candidateContainers (cellRects : List ((Nat × Nat) × Rect))
    (slotRects : List Rect) : List (Key × Rect) :=
  cellRects.map (fun cr => (Key.cell cr.1.1 cr.1.2, cr.2)) ++
    slotRects.enum.map (fun sr => (Key.slot sr.1, sr.2))

/-- The drop rule as the specification states it: on pointer-up the dragging
token commits to the first empty container whose rectangle contains the drop
point, with all grid cells checked before all slots and nothing checked after
one accepts; if there is none, the token returns to its origin container and
re-occupies it. -/
def upSpec (cellRects : List ((Nat × Nat) × Rect)) (slotRects : List Rect)
    (i : Nat) (s : EngineState) (t : TokenState) (p : Pt) : EngineState :=
  match (candidateContainers cellRects slotRects).find?
      (fun kr => kr.2.collidepoint p && containerEmpty s.grid s.slots kr.1) with
  | some (Key.cell r c, rect) =>
    let t' := { t with dragging := false, container := "grid",
                       pos_key := Key.cell r c,
                       rect := t.rect.setCenter rect.center,
                       origin_key := Key.cell r c,
                       origin_rect := rect, origin_container := "grid" }
    { s with toks := s.toks.set i t', grid := gridSet s.grid r c (some i) }
  | some (Key.slot j, rect) =>
    let t' := { t with dragging := false, container := "slot",
                       pos_key := Key.slot j,
                       rect := t.rect.setCenter rect.center,
                       origin_key := Key.slot j,
                       origin_rect := rect, origin_container := "slot" }
    { s with toks := s.toks.set i t', slots := s.slots.set j (some i) }
  | none =>
    let t' := { t with dragging := false, pos_key := t.origin_key,
                       rect := t.rect.setCenter t.origin_rect.center,
                       container := t.origin_container }
    let s' := { s with toks := s.toks.set i t' }
    if t'.container = "grid" then
      match t'.pos_key with
      | .cell r c => { s' with grid := gridSet s'.grid r c (some i) }
      | .slot _ => s'
    else
      match t'.pos_key with
      | .slot j => { s' with slots := s'.slots.set j (some i) }
      | .cell _ _ => s'

/-! Concrete example states used by several theorems. -/

/-- Example token sitting on grid cell (0,0) with bounds `[0,10) × [0,10)`. -/
def tok0Ex : TokenState :=
  ⟨⟨"t", "x", "+"⟩, ⟨0, 0, 10, 10⟩, Key.cell 0 0, "grid", Key.cell 0 0,
    ⟨0, 0, 10, 10⟩, "grid", false, (0, 0)⟩

/-- Example token on grid cell (0,1) whose bounds overlap `tok0Ex`. -/
def tok1Near : TokenState :=
  ⟨⟨"u", "y", "+"⟩, ⟨5, 0, 10, 10⟩, Key.cell 0 1, "grid", Key.cell 0 1,
    ⟨5, 0, 10, 10⟩, "grid", false, (0, 0)⟩

/-- Example token on grid cell (0,1) whose bounds are disjoint from `tok0Ex`. -/
def tok1Far : TokenState :=
  ⟨⟨"u", "y", "+"⟩, ⟨20, 0, 10, 10⟩, Key.cell 0 1, "grid", Key.cell 0 1,
    ⟨20, 0, 10, 10⟩, "grid", false, (0, 0)⟩

/-- Two-token state with overlapping token bounds. -/
def sOverlap : EngineState :=
  ⟨[[some 0, some 1]], [], [tok0Ex, tok1Near], [0, 1]⟩

/-- Two-token state with disjoint token bounds. -/
def sApart : EngineState :=
  ⟨[[some 0, some 1]], [], [tok0Ex, tok1Far], [0, 1]⟩

/-! Concrete scenario data for exercising the full main loop: the real 4×4
grid and 8 slots with simple integer geometry, a one-equation set, and two
tokens seeded on cells (0,0) and (0,1). -/

/-- The sixteen grid-cell rectangles in the row-major insertion order of
`build_grid`. -/
def c2CellRects : List ((Nat × Nat) × Rect) :=
  [((0, 0), ⟨10, 100, 80, 80⟩), ((0, 1), ⟨110, 100, 80, 80⟩),
   ((0, 2), ⟨210, 100, 80, 80⟩), ((0, 3), ⟨310, 100, 80, 80⟩),
   ((1, 0), ⟨10, 200, 80, 80⟩), ((1, 1), ⟨110, 200, 80, 80⟩),
   ((1, 2), ⟨210, 200, 80, 80⟩), ((1, 3), ⟨310, 200, 80, 80⟩),
   ((2, 0), ⟨10, 300, 80, 80⟩), ((2, 1), ⟨110, 300, 80, 80⟩),
   ((2, 2), ⟨210, 300, 80, 80⟩), ((2, 3), ⟨310, 300, 80, 80⟩),
   ((3, 0), ⟨10, 400, 80, 80⟩), ((3, 1), ⟨110, 400, 80, 80⟩),
   ((3, 2), ⟨210, 400, 80, 80⟩), ((3, 3), ⟨310, 400, 80, 80⟩)]

/-- The eight equation-bar slot rectangles (left half, then right half). -/
def c2SlotRects : List Rect :=
  [⟨10, 600, 80, 80⟩, ⟨110, 600, 80, 80⟩, ⟨210, 600, 80, 80⟩, ⟨310, 600, 80, 80⟩,
   ⟨410, 600, 80, 80⟩, ⟨510, 600, 80, 80⟩, ⟨610, 600, 80, 80⟩, ⟨710, 600, 80, 80⟩]

/-- The check-button rectangle, away from every token. -/
def c2Button : Rect := ⟨900, 600, 80, 40⟩

/-- The loaded equation set: the single equation `x = y`. -/
def c2Set : EquationSet :=
  mkEquationSet [mkEquation "e" [⟨"x", "x", "+"⟩] [⟨"y", "y", "+"⟩]] "standard set"

/-- Initial engine state: token 0 (term `x`) on cell (0,0), token 1 (term
`y`) on cell (0,1), all slots empty. -/
def c2Init : EngineState :=
  ⟨[[some 0, some 1, none, none], [none, none, none, none],
    [none, none, none, none], [none, none, none, none]],
   [none, none, none, none, none, none, none, none],
   [⟨⟨"x", "x", "+"⟩, ⟨40, 130, 20, 20⟩, Key.cell 0 0, "grid", Key.cell 0 0,
     ⟨10, 100, 80, 80⟩, "grid", false, (0, 0)⟩,
    ⟨⟨"y", "y", "+"⟩, ⟨140, 130, 20, 20⟩, Key.cell 0 1, "grid", Key.cell 0 1,
     ⟨110, 100, 80, 80⟩, "grid", false, (0, 0)⟩],
   [0, 1]⟩

/-- The event sequence: drag token 0 into slot 0; press the check button (the
submission is incorrect, so the fallback moves token 0 back to the first free
grid cell WITHOUT updating its recorded origin, which stays `slot 0`); drag
token 1 into slot 0; then pick token 0 up again and release it away from
every container, so it rolls back to its stale origin `slot 0`. -/
def c2Events : List Event :=
  [.down (50, 140), .up (50, 640), .down (940, 620), .down (150, 140),
   .up (50, 640), .down (50, 140), .up (2000, 2000)]

/-- The final state of the scenario. -/
def c2Final : EngineState :=
  runEvents c2Set c2CellRects c2SlotRects c2Button c2Init c2Events

end Equatio

namespace Equatio

/-! Lemmas about the lexicographic comparison. -/

theorem charListLeb_cons_iff {a b : Char} {as bs : List Char} :
    charListLeb (a :: as) (b :: bs) = true ↔ a < b ∨ (a = b ∧ charListLeb as bs = true) := by
  show (if a < b then true else if b < a then false else charListLeb as bs) = true ↔ _
  rcases lt_trichotomy a b with h | h | h
  · rw [if_pos h]
    simp [h]
  · subst h
    rw [if_neg (lt_irrefl _), if_neg (lt_irrefl _)]
    simp
  · rw [if_neg (lt_asymm h), if_pos h]
    constructor
    · intro hF
      exact absurd hF (by simp)
    · rintro (h' | ⟨rfl, -⟩)
      · exact absurd h' (lt_asymm h)
      · exact absurd h (lt_irrefl _)

theorem charListLeb_refl : ∀ as, charListLeb as as = true
  | [] => rfl
  | _ :: as => charListLeb_cons_iff.mpr (Or.inr ⟨rfl, charListLeb_refl as⟩)

theorem charListLeb_total : ∀ as bs, charListLeb as bs = true ∨ charListLeb bs as = true
  | [], _ => Or.inl rfl
  | _ :: _, [] => Or.inr rfl
  | a :: as, b :: bs => by
    rcases lt_trichotomy a b with h | h | h
    · exact Or.inl (charListLeb_cons_iff.mpr (Or.inl h))
    · subst h
      rcases charListLeb_total as bs with h' | h'
      · exact Or.inl (charListLeb_cons_iff.mpr (Or.inr ⟨rfl, h'⟩))
      · exact Or.inr (charListLeb_cons_iff.mpr (Or.inr ⟨rfl, h'⟩))
    · exact Or.inr (charListLeb_cons_iff.mpr (Or.inl h))

theorem charListLeb_trans : ∀ as bs cs, charListLeb as bs = true →
    charListLeb bs cs = true → charListLeb as cs = true
  | [], _, _, _, _ => rfl
  | _ :: _, [], _, h₁, _ => Bool.noConfusion h₁
  | _ :: _, _ :: _, [], _, h₂ => Bool.noConfusion h₂
  | a :: as, b :: bs, c :: cs, h₁, h₂ => by
    rw [charListLeb_cons_iff] at h₁ h₂ ⊢
    rcases h₁ with h₁ | ⟨rfl, h₁⟩
    · rcases h₂ with h₂ | ⟨rfl, h₂⟩
      · exact Or.inl (h₁.trans h₂)
      · exact Or.inl h₁
    · rcases h₂ with h₂ | ⟨rfl, h₂⟩
      · exact Or.inl h₂
      · exact Or.inr ⟨rfl, charListLeb_trans as bs cs h₁ h₂⟩

theorem charListLeb_antisymm : ∀ as bs, charListLeb as bs = true →
    charListLeb bs as = true → as = bs
  | [], [], _, _ => rfl
  | [], _ :: _, _, h₂ => Bool.noConfusion h₂
  | _ :: _, [], h₁, _ => Bool.noConfusion h₁
  | a :: as, b :: bs, h₁, h₂ => by
    rw [charListLeb_cons_iff] at h₁ h₂
    rcases h₁ with h₁ | ⟨rfl, h₁⟩
    · rcases h₂ with h₂ | ⟨rfl, h₂⟩
      · exact absurd h₂ (lt_asymm h₁)
      · exact absurd h₁ (lt_irrefl _)
    · rcases h₂ with h₂ | ⟨-, h₂⟩
      · exact absurd h₂ (lt_irrefl _)
      · rw [charListLeb_antisymm as bs h₁ h₂]

theorem strLeb_refl (s : String) : strLeb s s = true :=
  charListLeb_refl s.data

theorem strLeb_total (s t : String) : strLeb s t = true ∨ strLeb t s = true :=
  charListLeb_total s.data t.data

theorem strLeb_trans {s t u : String} (h₁ : strLeb s t = true)
    (h₂ : strLeb t u = true) : strLeb s u = true :=
  charListLeb_trans s.data t.data u.data h₁ h₂

theorem strLeb_antisymm : ∀ {s t : String}, strLeb s t = true →
    strLeb t s = true → s = t
  | ⟨_⟩, ⟨_⟩, h₁, h₂ => congrArg String.mk (charListLeb_antisymm _ _ h₁ h₂)

theorem keyLe_isTotal {α : Type} (key : α → String) : IsTotal α (keyLe key) :=
  ⟨fun a b => strLeb_total (key a) (key b)⟩

theorem keyLe_isTrans {α : Type} (key : α → String) : IsTrans α (keyLe key) :=
  ⟨fun _ _ _ hab hbc => strLeb_trans hab hbc⟩

theorem keyLe_isRefl {α : Type} (key : α → String) : IsRefl α (keyLe key) :=
  ⟨fun a => strLeb_refl (key a)⟩

attribute [instance] keyLe_isTotal keyLe_isTrans keyLe_isRefl

/-! Basic lemmas about the data model. -/

theorem termEq_refl (t : Term) : termEq t t = true := by
  simp [termEq]

theorem termEq_symm {t u : Term} (h : termEq t u = true) : termEq u t = true := by
  simp only [termEq, Bool.and_eq_true, beq_iff_eq] at h ⊢
  exact ⟨h.1.symm, h.2.symm⟩

theorem termEq_trans {t u v : Term} (h₁ : termEq t u = true) (h₂ : termEq u v = true) :
    termEq t v = true := by
  simp only [termEq, Bool.and_eq_true, beq_iff_eq] at h₁ h₂ ⊢
  exact ⟨h₁.1.trans h₂.1, h₁.2.trans h₂.2⟩

theorem listEqBy_refl {α : Type} {f : α → α → Bool} (hf : ∀ a, f a a = true) :
    ∀ l : List α, listEqBy f l l = true
  | [] => rfl
  | a :: as => by simp [listEqBy, hf a, listEqBy_refl hf as]

theorem listEqBy_symm {α : Type} {f : α → α → Bool}
    (hf : ∀ a b, f a b = true → f b a = true) :
    ∀ {l₁ l₂ : List α}, listEqBy f l₁ l₂ = true → listEqBy f l₂ l₁ = true
  | [], [], _ => rfl
  | a :: as, b :: bs, h => by
    simp only [listEqBy, Bool.and_eq_true] at h ⊢
    exact ⟨hf a b h.1, listEqBy_symm hf h.2⟩

theorem listEqBy_trans {α : Type} {f : α → α → Bool}
    (hf : ∀ a b c, f a b = true → f b c = true → f a c = true) :
    ∀ {l₁ l₂ l₃ : List α}, listEqBy f l₁ l₂ = true → listEqBy f l₂ l₃ = true →
      listEqBy f l₁ l₃ = true
  | [], [], [], _, _ => rfl
  | a :: as, b :: bs, c :: cs, h₁, h₂ => by
    simp only [listEqBy, Bool.and_eq_true] at h₁ h₂ ⊢
    exact ⟨hf a b c h₁.1 h₂.1, listEqBy_trans hf h₁.2 h₂.2⟩

theorem equationBEq_refl (e : Equation) : equationBEq e e = true := by
  simp [equationBEq, listEqBy_refl termEq_refl]

theorem equationBEq_symm {e f : Equation} (h : equationBEq e f = true) :
    equationBEq f e = true := by
  simp only [equationBEq, Bool.and_eq_true] at h ⊢
  exact ⟨listEqBy_symm (fun _ _ ha => termEq_symm ha) h.1,
    listEqBy_symm (fun _ _ ha => termEq_symm ha) h.2⟩

theorem equationBEq_trans {e f g : Equation} (h₁ : equationBEq e f = true)
    (h₂ : equationBEq f g = true) : equationBEq e g = true := by
  simp only [equationBEq, Bool.and_eq_true] at h₁ h₂ ⊢
  exact ⟨@listEqBy_trans Term termEq (fun _ _ _ ha hb => termEq_trans ha hb) _ _ _ h₁.1 h₂.1,
    @listEqBy_trans Term termEq (fun _ _ _ ha hb => termEq_trans ha hb) _ _ _ h₁.2 h₂.2⟩

theorem mkEquation_left_sorted (name : String) (left right : List Term) :
    (mkEquation name left right).left.Sorted termLe :=
  List.sorted_insertionSort termLe _

theorem mkEquation_right_sorted (name : String) (left right : List Term) :
    (mkEquation name left right).right.Sorted termLe :=
  List.sorted_insertionSort termLe _

theorem mkEquation_left_ne_nil (name : String) (left right : List Term) :
    (mkEquation name left right).left ≠ [] := by
  cases left with
  | nil =>
    show List.insertionSort termLe [ZEREO_TERM] ≠ []
    intro h
    have hlen := congrArg List.length h
    rw [List.length_insertionSort] at hlen
    simp at hlen
  | cons a as =>
    show List.insertionSort termLe (a :: as) ≠ []
    intro h
    have hlen := congrArg List.length h
    rw [List.length_insertionSort] at hlen
    simp at hlen

theorem mkEquation_right_ne_nil (name : String) (left right : List Term) :
    (mkEquation name left right).right ≠ [] := by
  cases right with
  | nil =>
    show List.insertionSort termLe [ZEREO_TERM] ≠ []
    intro h
    have hlen := congrArg List.length h
    rw [List.length_insertionSort] at hlen
    simp at hlen
  | cons a as =>
    show List.insertionSort termLe (a :: as) ≠ []
    intro h
    have hlen := congrArg List.length h
    rw [List.length_insertionSort] at hlen
    simp at hlen

theorem sorted_key_perm_eq {α : Type} (key : α → String) :
    ∀ (l₁ l₂ : List α), l₁.Perm l₂ → l₁.Sorted (keyLe key) → l₂.Sorted (keyLe key) →
      (∀ x ∈ l₁, ∀ y ∈ l₁, key x = key y → x = y) → l₁ = l₂ := by
  intro l₁
  induction l₁ with
  | nil =>
    intro l₂ hp _ _ _
    exact hp.nil_eq
  | cons a t₁ ih =>
    intro l₂ hp hs₁ hs₂ hinj
    cases l₂ with
    | nil => exact absurd hp.symm.nil_eq (by simp)
    | cons b t₂ =>
      have hab : a = b := by
        have hamem : a ∈ b :: t₂ := hp.subset (List.mem_cons_self a t₁)
        have hbmem : b ∈ a :: t₁ := hp.symm.subset (List.mem_cons_self b t₂)
        rcases List.mem_cons.mp hamem with h | h
        · exact h
        · rcases List.mem_cons.mp hbmem with h' | h'
          · exact h'.symm
          · have h₁ : keyLe key a b := List.rel_of_sorted_cons hs₁ b h'
            have h₂ : keyLe key b a := List.rel_of_sorted_cons hs₂ a h
            exact hinj a (List.mem_cons_self a t₁) b (List.mem_cons_of_mem a h')
              (strLeb_antisymm h₁ h₂)
      subst hab
      have ht : t₁.Perm t₂ := hp.cons_inv
      have := ih t₂ ht hs₁.of_cons hs₂.of_cons
        (fun x hx y hy h => hinj x (List.mem_cons_of_mem a hx) y (List.mem_cons_of_mem a hy) h)
      rw [this]

theorem insertionSort_key_perm_congr {α : Type} (key : α → String) {l l' : List α}
    (hp : l.Perm l')
    (hinj : ∀ x ∈ l, ∀ y ∈ l, key x = key y → x = y) :
    List.insertionSort (keyLe key) l = List.insertionSort (keyLe key) l' := by
  refine sorted_key_perm_eq key _ _ ?_ (List.sorted_insertionSort _ l)
    (List.sorted_insertionSort _ l') ?_
  · exact ((List.perm_insertionSort _ l).trans hp).trans (List.perm_insertionSort _ l').symm
  · intro x hx y hy h
    exact hinj x ((List.mem_insertionSort _).mp hx) y ((List.mem_insertionSort _).mp hy) h

theorem sorted_map_key_eq {α : Type} (key : α → String) (l : List α) :
    List.insertionSort strLe (l.map key) = (List.insertionSort (keyLe key) l).map key := by
  refine sorted_key_perm_eq (id : String → String) _ _ ?_
    (List.sorted_insertionSort _ _) ?_ ?_
  · exact (List.perm_insertionSort _ _).trans ((List.perm_insertionSort (keyLe key) l).map key).symm
  · exact List.Pairwise.map key (fun _ _ h => h) (List.sorted_insertionSort (keyLe key) l)
  · intro x _ y _ h
    exact h

theorem sortSide_congr {l l' : List Term} (hp : l.Perm l')
    (hinj : ∀ x ∈ l, ∀ y ∈ l, x.latex_code = y.latex_code → x = y) :
    sortSide l = sortSide l' := by
  cases l with
  | nil =>
    have h : l' = [] := hp.nil_eq.symm
    subst h
    rfl
  | cons a as =>
    cases l' with
    | nil => exact absurd hp.symm.nil_eq (by simp)
    | cons b bs =>
      show List.insertionSort termLe (a :: as) = List.insertionSort termLe (b :: bs)
      exact insertionSort_key_perm_congr Term.latex_code hp hinj

theorem check_side_perm_congr (side : List Term) {test test' : List Term}
    (hp : test.Perm test')
    (hinj : ∀ x ∈ test, ∀ y ∈ test, x.latex_code = y.latex_code → x = y) :
    check_side side test = check_side side test' := by
  unfold check_side
  rw [insertionSort_key_perm_congr Term.latex_code hp hinj, hp.length_eq]

theorem listEqBy_termEq_map_code :
    ∀ {l₁ l₂ : List Term}, listEqBy termEq l₁ l₂ = true →
      l₁.map Term.latex_code = l₂.map Term.latex_code
  | [], [], _ => rfl
  | a :: as, b :: bs, h => by
    simp only [listEqBy, Bool.and_eq_true, termEq, beq_iff_eq] at h
    simp only [List.map_cons, h.1.2, listEqBy_termEq_map_code h.2]

theorem zip_all_eq_listEqBy {α : Type} (f : α → α → Bool) :
    ∀ (l₁ l₂ : List α), l₁.length = l₂.length →
      ((l₁.zip l₂).all fun p => f p.1 p.2) = listEqBy f l₁ l₂
  | [], [], _ => rfl
  | a :: as, b :: bs, h => by
    simp only [List.zip_cons_cons, List.all_cons, listEqBy]
    rw [zip_all_eq_listEqBy f as bs (by simpa using h)]
  | a :: as, [], h => by simp at h
  | [], b :: bs, h => by simp at h

theorem check_side_imp {side test : List Term} (h : check_side side test = true) :
    side.map Term.latex_code = List.insertionSort strLe (test.map Term.latex_code) := by
  unfold check_side at h
  rw [Bool.and_eq_true] at h
  have hlen : side.length = test.length := by
    have := h.1
    simpa using this
  have hlen' : side.length = (List.insertionSort termLe test).length := by
    rw [List.length_insertionSort]
    exact hlen
  have hall := h.2
  rw [zip_all_eq_listEqBy termEq _ _ hlen'] at hall
  rw [sorted_map_key_eq Term.latex_code test]
  exact listEqBy_termEq_map_code hall

/-- C9 (claim): an empty side supplied at construction becomes the single
sentinel zero term, with sign `"+"` and code `"0"`; consequently neither side
of a constructed equation is ever empty. -/
theorem c9_empty_side_sentinel (name : String) (left right : List Term) :
    (left = [] → (mkEquation name left right).left = [ZEREO_TERM]) ∧
    (right = [] → (mkEquation name left right).right = [ZEREO_TERM]) ∧
    ZEREO_TERM.sign = "+" ∧ ZEREO_TERM.latex_code = "0" ∧
    (mkEquation name left right).left ≠ [] ∧
    (mkEquation name left right).right ≠ [] := by
  refine ⟨fun hl => ?_, fun hr => ?_, rfl, rfl,
    mkEquation_left_ne_nil name left right, mkEquation_right_ne_nil name left right⟩
  · subst hl; rfl
  · subst hr; rfl

/-- Witness for C9 at a concrete construction with an empty left side. -/
theorem c9_empty_side_sentinel_witness :
    (mkEquation "w" [] [⟨"y", "y", "+"⟩]).left = [ZEREO_TERM] :=
  (c9_empty_side_sentinel "w" [] [⟨"y", "y", "+"⟩]).1 rfl

/-- C3, counterexample to the claim as stated: permuting `testLeft` CAN change
the result of `check_input`.  With two test terms sharing the `latex_code`
`"x"` but with different signs, the stable sort keeps their input order, and
the zip against the equation's side compares different pairs. -/
theorem c3_counterexample :
    check_input (mkEquation "tie" [⟨"p", "x", "+"⟩, ⟨"m", "x", "-"⟩] [⟨"b", "y", "+"⟩])
        [⟨"p", "x", "+"⟩, ⟨"m", "x", "-"⟩] [⟨"b", "y", "+"⟩] = true ∧
    check_input (mkEquation "tie" [⟨"p", "x", "+"⟩, ⟨"m", "x", "-"⟩] [⟨"b", "y", "+"⟩])
        [⟨"m", "x", "-"⟩, ⟨"p", "x", "+"⟩] [⟨"b", "y", "+"⟩] = false := by
  constructor <;> decide

/-- C3 (amended): permuting `testLeft` (or `testRight`) never changes the
result of `check_input` PROVIDED no two distinct terms of the permuted list
share a `latex_code` (terms with equal code but different sign can swap under
the stable sort and change the result); swapping `testLeft` with `testRight`
generally does change the result, e.g. for the equation `x = y`. -/
theorem c3_check_input_perm_invariant :
    (∀ (e : Equation) (l l' r r' : List Term), l.Perm l' → r.Perm r' →
      (∀ x ∈ l, ∀ y ∈ l, x.latex_code = y.latex_code → x = y) →
      (∀ x ∈ r, ∀ y ∈ r, x.latex_code = y.latex_code → x = y) →
      check_input e l r = check_input e l' r') ∧
    (check_input (mkEquation "swap" [⟨"a", "x", "+"⟩] [⟨"b", "y", "+"⟩])
        [⟨"a", "x", "+"⟩] [⟨"b", "y", "+"⟩] = true ∧
      check_input (mkEquation "swap" [⟨"a", "x", "+"⟩] [⟨"b", "y", "+"⟩])
        [⟨"b", "y", "+"⟩] [⟨"a", "x", "+"⟩] = false) := by
  refine ⟨fun e l l' r r' hpl hpr hil hir => ?_, by decide, by decide⟩
  unfold check_input
  rw [check_side_perm_congr e.left hpl hil, check_side_perm_congr e.right hpr hir]

/-- Witness for C3: the permutation-invariance part applied to a concrete
permutation of a two-term test side with distinct codes. -/
theorem c3_check_input_perm_invariant_witness :
    check_input (mkEquation "w3" [⟨"a", "u", "+"⟩, ⟨"b", "v", "+"⟩] [⟨"c", "w", "+"⟩])
        [⟨"a", "u", "+"⟩, ⟨"b", "v", "+"⟩] [⟨"c", "w", "+"⟩] =
      check_input (mkEquation "w3" [⟨"a", "u", "+"⟩, ⟨"b", "v", "+"⟩] [⟨"c", "w", "+"⟩])
        [⟨"b", "v", "+"⟩, ⟨"a", "u", "+"⟩] [⟨"c", "w", "+"⟩] :=
  c3_check_input_perm_invariant.1 _ _ _ _ _ (by decide) (by decide) (by decide) (by decide)

theorem term_roundtrip (t : Term) : Term.from_dict (Term.as_dict t) = t := rfl

theorem map_term_roundtrip : ∀ ts : List Term, (ts.map Term.as_dict).map Term.from_dict = ts
  | [] => rfl
  | t :: ts => by
    rw [List.map_cons, List.map_cons, map_term_roundtrip ts]
    rfl

theorem mkEquation_of_sorted {name : String} {left right : List Term}
    (h₁ : left ≠ []) (h₂ : right ≠ []) (hs₁ : left.Sorted termLe)
    (hs₂ : right.Sorted termLe) : mkEquation name left right = ⟨name, left, right⟩ := by
  cases left with
  | nil => exact absurd rfl h₁
  | cons a as =>
    cases right with
    | nil => exact absurd rfl h₂
    | cons b bs =>
      show Equation.mk name (List.insertionSort termLe (a :: as))
          (List.insertionSort termLe (b :: bs)) = _
      rw [hs₁.insertionSort_eq, hs₂.insertionSort_eq]

/-- C8, counterexample to the claim as stated: permuting term records within
a side of a serialized record CAN change the reconstructed equation, when two
records share a `latex_code` but have different signs. -/
theorem c8_counterexample :
    equationBEq
        (Equation.from_dict ⟨"tie", [⟨"p", some "+", "x"⟩, ⟨"m", some "-", "x"⟩],
          [⟨"b", some "+", "y"⟩]⟩)
        (Equation.from_dict ⟨"tie", [⟨"m", some "-", "x"⟩, ⟨"p", some "+", "x"⟩],
          [⟨"b", some "+", "y"⟩]⟩) = false := by
  decide

/-- C8 (amended): serialization round-trips exactly — `from_dict (as_dict e)`
is `e` itself for every constructed equation — and permuting the term records
within a side of a record does not affect the reconstructed equation PROVIDED
no two distinct records of that side share a `latex_code` (records with equal
code but different signs can swap under the stable sort, as the
counterexample shows). -/
theorem c8_serialization_roundtrip :
    (∀ (name : String) (left right : List Term),
      Equation.from_dict (Equation.as_dict (mkEquation name left right)) =
        mkEquation name left right) ∧
    (∀ (name : String) (ld ld' rd rd' : List TermDict), ld.Perm ld' → rd.Perm rd' →
      (∀ x ∈ ld, ∀ y ∈ ld, x.latex_code = y.latex_code → x = y) →
      (∀ x ∈ rd, ∀ y ∈ rd, x.latex_code = y.latex_code → x = y) →
      equationBEq (Equation.from_dict ⟨name, ld, rd⟩) (Equation.from_dict ⟨name, ld', rd'⟩) =
        true) := by
  constructor
  · intro name left right
    show Equation.from_dict (Equation.as_dict (mkEquation name left right)) = _
    unfold Equation.as_dict Equation.from_dict
    rw [map_term_roundtrip, map_term_roundtrip]
    rw [mkEquation_of_sorted (mkEquation_left_ne_nil name left right)
      (mkEquation_right_ne_nil name left right) (mkEquation_left_sorted name left right)
      (mkEquation_right_sorted name left right)]
  · intro name ld ld' rd rd' hpl hpr hil hir
    unfold Equation.from_dict
    have hleft : sortSide (ld.map Term.from_dict) = sortSide (ld'.map Term.from_dict) := by
      refine sortSide_congr (hpl.map Term.from_dict) ?_
      intro x hx y hy hcode
      obtain ⟨dx, hdx, rfl⟩ := List.mem_map.mp hx
      obtain ⟨dy, hdy, rfl⟩ := List.mem_map.mp hy
      rw [hil dx hdx dy hdy hcode]
    have hright : sortSide (rd.map Term.from_dict) = sortSide (rd'.map Term.from_dict) := by
      refine sortSide_congr (hpr.map Term.from_dict) ?_
      intro x hx y hy hcode
      obtain ⟨dx, hdx, rfl⟩ := List.mem_map.mp hx
      obtain ⟨dy, hdy, rfl⟩ := List.mem_map.mp hy
      rw [hir dx hdx dy hdy hcode]
    show equationBEq (mkEquation _ _ _) (mkEquation _ _ _) = true
    unfold equationBEq mkEquation
    rw [hleft, hright]
    simp [listEqBy_refl termEq_refl]

/-- Witness for C8: the record-permutation part applied to a concrete
two-record side with distinct codes. -/
theorem c8_serialization_roundtrip_witness :
    equationBEq
        (Equation.from_dict ⟨"w8", [⟨"a", some "+", "u"⟩, ⟨"b", some "+", "v"⟩],
          [⟨"c", some "+", "w"⟩]⟩)
        (Equation.from_dict ⟨"w8", [⟨"b", some "+", "v"⟩, ⟨"a", some "+", "u"⟩],
          [⟨"c", some "+", "w"⟩]⟩) = true :=
  c8_serialization_roundtrip.2 "w8" _ _ _ _ (by decide) (by decide) (by decide) (by decide)

theorem check_orientation_imp (eq : Equation) (L R : List Term)
    (h : check_input eq L R = true) :
    (List.insertionSort strLe (L.map Term.latex_code) == eq.left.map Term.latex_code &&
      List.insertionSort strLe (R.map Term.latex_code) == eq.right.map Term.latex_code) =
      true := by
  rw [check_input, Bool.and_eq_true] at h
  rw [Bool.and_eq_true, beq_iff_eq, beq_iff_eq]
  exact ⟨(check_side_imp h.1).symm, (check_side_imp h.2).symm⟩

/-- C1, counterexample to the claim as stated: the main-loop validation
compares only the sorted `latex_code` lists and ignores the signs, so it
accepts a submission that `check_input` rejects (here `-x` submitted against
the equation `+x = +y`); the two checks are therefore not equivalent. -/
theorem c1_counterexample :
    mainCheck (mkEquationSet [mkEquation "e" [⟨"a", "x", "+"⟩] [⟨"b", "y", "+"⟩]] "std")
        [⟨"a", "x", "-"⟩] [⟨"b", "y", "+"⟩] = true ∧
    refCheck (mkEquationSet [mkEquation "e" [⟨"a", "x", "+"⟩] [⟨"b", "y", "+"⟩]] "std")
        [⟨"a", "x", "-"⟩] [⟨"b", "y", "+"⟩] = false := by
  constructor <;> decide

/-- C1 (amended): the main-loop validation is implied by, but not equivalent
to, the `check_input`-based reference.  If some equation of the set accepts
the submitted sides through `check_input` in either orientation, the main
loop reports `matched=true`; the converse fails because the main loop
compares only multisets of `latex_code` strings and ignores the signs (see
the counterexample). -/
theorem c1_refCheck_implies_mainCheck :
    ∀ (es : EquationSet) (L R : List Term),
      refCheck es L R = true → mainCheck es L R = true := by
  intro es L R h
  rw [refCheck, List.any_eq_true] at h
  obtain ⟨eq, heq, hor⟩ := h
  unfold mainCheck
  simp only [List.any_eq_true]
  refine ⟨eq, heq, ?_⟩
  rw [Bool.or_eq_true] at hor ⊢
  rcases hor with h' | h'
  · exact Or.inl (check_orientation_imp eq L R h')
  · right
    have hoc := check_orientation_imp eq R L h'
    rw [Bool.and_eq_true] at hoc ⊢
    exact ⟨hoc.2, hoc.1⟩

/-- Witness for C1: a concrete submission accepted by `check_input` is also
accepted by the main-loop validation. -/
theorem c1_refCheck_implies_mainCheck_witness :
    refCheck (mkEquationSet [mkEquation "e" [⟨"a", "x", "+"⟩] [⟨"b", "y", "+"⟩]] "std")
        [⟨"c", "x", "+"⟩] [⟨"d", "y", "+"⟩] = true ∧
    mainCheck (mkEquationSet [mkEquation "e" [⟨"a", "x", "+"⟩] [⟨"b", "y", "+"⟩]] "std")
        [⟨"c", "x", "+"⟩] [⟨"d", "y", "+"⟩] = true :=
  ⟨by decide, c1_refCheck_implies_mainCheck _ _ _ (by decide)⟩

/-! Lemmas about the placement engine. -/

theorem get?_set_other {α : Type} :
    ∀ (l : List α) (j : Nat) (v : α) (i : Nat), i ≠ j → (l.set j v).get? i = l.get? i
  | [], _, _, _, _ => rfl
  | _ :: _, 0, _, 0, h => absurd rfl h
  | _ :: _, 0, _, _ + 1, _ => rfl
  | _ :: _, _ + 1, _, 0, _ => rfl
  | _ :: as, j + 1, v, i + 1, h => by
    show (as.set j v).get? i = as.get? i
    exact get?_set_other as j v i (fun hh => h (by rw [hh]))

theorem get?_set_self {α : Type} :
    ∀ (l : List α) (j : Nat) (v : α), j < l.length → (l.set j v).get? j = some v
  | [], _, _, h => absurd h (by simp)
  | _ :: _, 0, _, _ => rfl
  | _ :: as, j + 1, v, h => get?_set_self as j v (Nat.lt_of_succ_lt_succ h)

theorem get?_some_lt {α : Type} :
    ∀ (l : List α) (i : Nat) (a : α), l.get? i = some a → i < l.length
  | [], _, _, h => Option.noConfusion h
  | _ :: _, 0, _, _ => Nat.succ_pos _
  | _ :: as, i + 1, a, h => Nat.succ_lt_succ (get?_some_lt as i a h)

theorem bool_not_true {b : Bool} (h : ¬(b = true)) : b = false := by
  cases b
  · rfl
  · exact absurd rfl h

theorem handle_down_toks_other (p : Pt) (j : Nat) (cr : List ((Nat × Nat) × Rect))
    (sr : List Rect) (s : EngineState) {i : Nat} (hne : i ≠ j) :
    (handle_event (.down p) j cr sr s).toks.get? i = s.toks.get? i := by
  unfold handle_event
  cases hj : s.toks.get? j with
  | none => rfl
  | some t =>
    dsimp only
    by_cases hcol : t.rect.collidepoint p = true
    · rw [if_pos hcol]
      split
      · split
        · exact get?_set_other _ _ _ _ hne
        · exact get?_set_other _ _ _ _ hne
      · split
        · split
          · exact get?_set_other _ _ _ _ hne
          · exact get?_set_other _ _ _ _ hne
        · exact get?_set_other _ _ _ _ hne
    · rw [if_neg hcol]

theorem handle_down_toks_self (p : Pt) (j : Nat) (cr : List ((Nat × Nat) × Rect))
    (sr : List Rect) (s : EngineState) (t : TokenState)
    (hj : s.toks.get? j = some t) (hcol : t.rect.collidepoint p = true) :
    (handle_event (.down p) j cr sr s).toks.get? j =
      some { t with dragging := true,
                    mouse_offset := (t.rect.x - p.1, t.rect.y - p.2) } := by
  have hlt : j < s.toks.length := get?_some_lt _ _ _ hj
  unfold handle_event
  rw [hj]
  dsimp only
  rw [if_pos hcol]
  split
  · split
    · exact get?_set_self _ _ _ hlt
    · exact get?_set_self _ _ _ hlt
  · split
    · split
      · exact get?_set_self _ _ _ hlt
      · exact get?_set_self _ _ _ hlt
    · exact get?_set_self _ _ _ hlt

theorem handle_down_no_collide (p : Pt) (j : Nat) (cr : List ((Nat × Nat) × Rect))
    (sr : List Rect) (s : EngineState) (t : TokenState)
    (hj : s.toks.get? j = some t) (hcol : t.rect.collidepoint p = false) :
    handle_event (.down p) j cr sr s = s := by
  unfold handle_event
  rw [hj]
  dsimp only
  rw [if_neg (by rw [hcol]; simp)]

theorem handle_down_missing (p : Pt) (j : Nat) (cr : List ((Nat × Nat) × Rect))
    (sr : List Rect) (s : EngineState) (hj : s.toks.get? j = none) :
    handle_event (.down p) j cr sr s = s := by
  unfold handle_event
  rw [hj]

theorem foldl_down_not_mem (cr : List ((Nat × Nat) × Rect)) (sr : List Rect) (p : Pt) :
    ∀ (L : List Nat) (s : EngineState) (i : Nat), i ∉ L →
      (L.foldl (fun st k => handle_event (.down p) k cr sr st) s).toks.get? i =
        s.toks.get? i
  | [], _, _, _ => rfl
  | j :: L, s, i, h => by
    rw [List.foldl_cons]
    rw [foldl_down_not_mem cr sr p L _ i (fun hm => h (List.mem_cons_of_mem j hm))]
    exact handle_down_toks_other p j cr sr s
      (fun he => h (he ▸ List.mem_cons_self j L))

theorem foldl_down_mem (cr : List ((Nat × Nat) × Rect)) (sr : List Rect) (p : Pt) :
    ∀ (L : List Nat) (s : EngineState) (i : Nat) (t : TokenState), L.Nodup →
      s.toks.get? i = some t → i ∈ L →
      (L.foldl (fun st k => handle_event (.down p) k cr sr st) s).toks.get? i =
        some (if t.rect.collidepoint p = true then
          { t with dragging := true, mouse_offset := (t.rect.x - p.1, t.rect.y - p.2) }
        else t)
  | [], _, _, _, _, _, h => absurd h (by simp)
  | j :: L, s, i, t, hnd, ht, hmem => by
    rw [List.foldl_cons]
    rcases List.mem_cons.mp hmem with rfl | hmem'
    · have hiL : i ∉ L := (List.nodup_cons.mp hnd).1
      rw [foldl_down_not_mem cr sr p L _ i hiL]
      by_cases hcol : t.rect.collidepoint p = true
      · rw [if_pos hcol]
        exact handle_down_toks_self p i cr sr s t ht hcol
      · rw [if_neg hcol]
        rw [handle_down_no_collide p i cr sr s t ht (bool_not_true hcol)]
        exact ht
    · have hij : i ≠ j := fun he => (List.nodup_cons.mp hnd).1 (he ▸ hmem')
      have ht' : (handle_event (.down p) j cr sr s).toks.get? i = some t := by
        rw [handle_down_toks_other p j cr sr s hij]
        exact ht
      exact foldl_down_mem cr sr p L _ i t (List.nodup_cons.mp hnd).2 ht' hmem'

/-- C4, counterexample to the claim as stated: when two tokens' visual bounds
overlap, a pointer-down inside the overlap is captured by EVERY containing
token (the handler has no not-already-dragging guard and no first-match cut),
not by exactly one; here both tokens of the state end up dragging. -/
theorem c4_counterexample :
    ((tokensHandle (Event.down (6, 5)) [] [] sOverlap).toks.get? 0).map
        TokenState.dragging = some true ∧
    ((tokensHandle (Event.down (6, 5)) [] [] sOverlap).toks.get? 1).map
        TokenState.dragging = some true := by
  constructor <;> decide

/-- C4 (amended): on a pointer-down, EVERY token in play whose current visual
bounds contain the event point captures it and transitions to Dragging
(recording the grab offset), regardless of iteration order; every token whose
bounds do not contain the point, and every token not in play, is unchanged.
In particular, when exactly one token's bounds contain the point, exactly
that token captures it. -/
theorem c4_pointer_down_capture :
    ∀ (cr : List ((Nat × Nat) × Rect)) (sr : List Rect) (p : Pt) (s : EngineState),
      s.inPlay.Nodup →
      ∀ i t, s.toks.get? i = some t →
        ((i ∈ s.inPlay → t.rect.collidepoint p = true →
          (tokensHandle (.down p) cr sr s).toks.get? i =
            some { t with dragging := true,
                          mouse_offset := (t.rect.x - p.1, t.rect.y - p.2) }) ∧
         (i ∈ s.inPlay → t.rect.collidepoint p = false →
          (tokensHandle (.down p) cr sr s).toks.get? i = some t) ∧
         (i ∉ s.inPlay →
          (tokensHandle (.down p) cr sr s).toks.get? i = some t)) := by
  intro cr sr p s hnd i t ht
  refine ⟨fun hmem hcol => ?_, fun hmem hcol => ?_, fun hmem => ?_⟩
  · have := foldl_down_mem cr sr p s.inPlay s i t hnd ht hmem
    rw [if_pos hcol] at this
    exact this
  · have := foldl_down_mem cr sr p s.inPlay s i t hnd ht hmem
    rw [if_neg (by rw [hcol]; simp)] at this
    exact this
  · rw [tokensHandle, foldl_down_not_mem cr sr p s.inPlay s i hmem]
    exact ht

/-- Witness for C4: in a two-token state where only token 0 contains the
point, token 0 ends up dragging and token 1 is unchanged. -/
theorem c4_pointer_down_capture_witness :
    (tokensHandle (Event.down (2, 2)) [] [] sApart).toks.get? 0 =
      some { tok0Ex with dragging := true,
                         mouse_offset := (tok0Ex.rect.x - 2, tok0Ex.rect.y - 2) } ∧
    (tokensHandle (Event.down (2, 2)) [] [] sApart).toks.get? 1 = some tok1Far :=
  ⟨(c4_pointer_down_capture [] [] (2, 2) sApart (by decide) 0 tok0Ex rfl).1
      (by decide) (by decide),
   (c4_pointer_down_capture [] [] (2, 2) sApart (by decide) 1 tok1Far rfl).2.1
      (by decide) (by decide)⟩

theorem find?_append_match {α : Type} (f : α → Bool) :
    ∀ (l₁ l₂ : List α), (l₁ ++ l₂).find? f =
      (match l₁.find? f with | some x => some x | none => l₂.find? f)
  | [], _ => rfl
  | a :: as, l₂ => by
    by_cases h : f a = true
    · rw [List.cons_append, List.find?_cons_of_pos _ h, List.find?_cons_of_pos _ h]
    · rw [List.cons_append, List.find?_cons_of_neg _ (by rw [bool_not_true h]; simp),
        List.find?_cons_of_neg _ (by rw [bool_not_true h]; simp)]
      exact find?_append_match f as l₂

theorem find?_map_comp {α β : Type} (g : α → β) (f : β → Bool) :
    ∀ l : List α, (l.map g).find? f = (l.find? (fun a => f (g a))).map g
  | [] => rfl
  | a :: as => by
    by_cases h : f (g a) = true
    · have hr : (a :: as).find? (fun a => f (g a)) = some a :=
        List.find?_cons_of_pos _ h
      rw [List.map_cons, List.find?_cons_of_pos _ h, hr]
      rfl
    · have h' : f (g a) = false := bool_not_true h
      have hr : (a :: as).find? (fun a => f (g a)) = as.find? (fun a => f (g a)) :=
        List.find?_cons_of_neg _ (by simp [h'])
      rw [List.map_cons, List.find?_cons_of_neg _ (by simp [h']), hr]
      exact find?_map_comp g f as

/-- C5 (claim): on a pointer-up event, a dragging token behaves exactly as
the drop rule states: it commits to the first empty container whose rectangle
contains the drop point, all grid cells being checked before all slots, with
no further candidate checked after one accepts; and when no empty container's
rectangle contains the point (including release over an occupied container),
it returns to its origin container and re-occupies it. -/
theorem c5_pointer_up_commit :
    ∀ (cr : List ((Nat × Nat) × Rect)) (sr : List Rect) (i : Nat) (s : EngineState)
      (t : TokenState) (p : Pt), s.toks.get? i = some t → t.dragging = true →
      handle_event (.up p) i cr sr s = upSpec cr sr i s t p := by
  intro cr sr i s t p hi hd
  unfold handle_event upSpec candidateContainers
  rw [hi]
  dsimp only
  rw [if_pos hd]
  rw [find?_append_match, find?_map_comp, find?_map_comp]
  have hcell : (fun a : (Nat × Nat) × Rect =>
      (a.2.collidepoint p && containerEmpty s.grid s.slots (Key.cell a.1.1 a.1.2))) =
      (fun cr : (Nat × Nat) × Rect =>
        (cr.2.collidepoint p && (gridGet s.grid cr.1.1 cr.1.2 == none))) := rfl
  have hslot : (fun a : Nat × Rect =>
      (a.2.collidepoint p && containerEmpty s.grid s.slots (Key.slot a.1))) =
      (fun sr : Nat × Rect =>
        (sr.2.collidepoint p && (s.slots.getD sr.1 none == none))) := rfl
  rw [hcell, hslot]
  cases hc : cr.find? (fun cr =>
      (cr.2.collidepoint p && (gridGet s.grid cr.1.1 cr.1.2 == none))) with
  | some c => rfl
  | none =>
    cases hs : sr.enum.find? (fun sr =>
        (sr.2.collidepoint p && (s.slots.getD sr.1 none == none))) with
    | some c => rfl
    | none => rfl

/-- Witness for C5: a dragging token released away from every container rect
rolls back to its origin, exactly as `upSpec` prescribes. -/
theorem c5_pointer_up_commit_witness :
    ((⟨[[none, some 1]], [], [⟨⟨"t", "x", "+"⟩, ⟨0, 0, 10, 10⟩, Key.cell 0 0, "grid",
        Key.cell 0 0, ⟨0, 0, 10, 10⟩, "grid", true, (0, 0)⟩, tok1Far],
        [0, 1]⟩ : EngineState).toks.get? 0 =
      some ⟨⟨"t", "x", "+"⟩, ⟨0, 0, 10, 10⟩, Key.cell 0 0, "grid",
        Key.cell 0 0, ⟨0, 0, 10, 10⟩, "grid", true, (0, 0)⟩) ∧
    handle_event (.up (100, 100)) 0 [] []
        ⟨[[none, some 1]], [], [⟨⟨"t", "x", "+"⟩, ⟨0, 0, 10, 10⟩, Key.cell 0 0, "grid",
          Key.cell 0 0, ⟨0, 0, 10, 10⟩, "grid", true, (0, 0)⟩, tok1Far], [0, 1]⟩ =
      upSpec [] [] 0
        ⟨[[none, some 1]], [], [⟨⟨"t", "x", "+"⟩, ⟨0, 0, 10, 10⟩, Key.cell 0 0, "grid",
          Key.cell 0 0, ⟨0, 0, 10, 10⟩, "grid", true, (0, 0)⟩, tok1Far], [0, 1]⟩
        ⟨⟨"t", "x", "+"⟩, ⟨0, 0, 10, 10⟩, Key.cell 0 0, "grid",
          Key.cell 0 0, ⟨0, 0, 10, 10⟩, "grid", true, (0, 0)⟩ (100, 100) :=
  ⟨rfl, c5_pointer_up_commit [] [] 0 _ _ (100, 100) rfl rfl⟩

/-- C10 (claim): `EquationSet.__eq__` ignores the sets' own names and compares
the name-sorted equation lists element-wise under Equation-equality: sets with
element-wise equal equation lists are equal whatever their names; and the same
equations can compare unequal when different equation names make the
constructor sort them differently (concrete second part: `A,B` versus
equation-equal `A',B'` where `A'` is renamed so that it sorts after `B'`). -/
theorem c10_set_equality :
    (∀ (name₁ name₂ : String) (eqs₁ eqs₂ : List Equation),
      listEqBy equationBEq eqs₁ eqs₂ = true →
      setEq ⟨name₁, eqs₁⟩ ⟨name₂, eqs₂⟩ = true) ∧
    ((mkEquationSet [mkEquation "a" [⟨"t", "x", "+"⟩] [⟨"u", "y", "+"⟩],
        mkEquation "b" [⟨"t", "z", "+"⟩] [⟨"u", "w", "+"⟩]] "S1").equations.length = 2 ∧
     (mkEquationSet [mkEquation "z" [⟨"t", "x", "+"⟩] [⟨"u", "y", "+"⟩],
        mkEquation "b" [⟨"t", "z", "+"⟩] [⟨"u", "w", "+"⟩]] "S2").equations.length = 2 ∧
     equationBEq (mkEquation "a" [⟨"t", "x", "+"⟩] [⟨"u", "y", "+"⟩])
        (mkEquation "z" [⟨"t", "x", "+"⟩] [⟨"u", "y", "+"⟩]) = true ∧
     setEq (mkEquationSet [mkEquation "a" [⟨"t", "x", "+"⟩] [⟨"u", "y", "+"⟩],
        mkEquation "b" [⟨"t", "z", "+"⟩] [⟨"u", "w", "+"⟩]] "S1")
       (mkEquationSet [mkEquation "z" [⟨"t", "x", "+"⟩] [⟨"u", "y", "+"⟩],
        mkEquation "b" [⟨"t", "z", "+"⟩] [⟨"u", "w", "+"⟩]] "S2") = false) := by
  refine ⟨fun name₁ name₂ eqs₁ eqs₂ h => h, by decide, by decide, by decide, by decide⟩

/-- Witness for C10: two concrete sets with different names and the same
equation list are equal. -/
theorem c10_set_equality_witness :
    setEq ⟨"first", [mkEquation "a" [⟨"t", "x", "+"⟩] [⟨"u", "y", "+"⟩]]⟩
      ⟨"second", [mkEquation "a" [⟨"t", "x", "+"⟩] [⟨"u", "y", "+"⟩]]⟩ = true :=
  c10_set_equality.1 "first" "second" _ _ (by decide)

theorem dedupAux_pairwise :
    ∀ (l acc : List Equation),
      acc.Pairwise (fun a b => equationBEq a b = false) →
      (dedupAux acc l).Pairwise (fun a b => equationBEq a b = false)
  | [], _, h => h
  | e :: es, acc, h => by
    rw [dedupAux]
    by_cases hc : (acc.any fun x => equationBEq x e) = true
    · rw [if_pos hc]
      exact dedupAux_pairwise es acc h
    · rw [if_neg hc]
      refine dedupAux_pairwise es (acc ++ [e]) ?_
      rw [List.pairwise_append]
      refine ⟨h, List.pairwise_singleton _ _, ?_⟩
      intro x hx y hy
      rw [List.mem_singleton] at hy
      subst hy
      rw [List.any_eq_true] at hc
      by_cases hxe : equationBEq x y = true
      · exact absurd ⟨x, hx, hxe⟩ hc
      · exact bool_not_true hxe

theorem dedupAux_mem_iff :
    ∀ (l acc : List Equation) (e : Equation),
      e ∈ dedupAux acc l ↔ e ∈ acc ∨
        ((∀ a ∈ acc, equationBEq a e = false) ∧
          ∃ pre post, l = pre ++ e :: post ∧ ∀ x ∈ pre, equationBEq x e = false) := by
  intro l
  induction l with
  | nil =>
    intro acc e
    rw [dedupAux]
    constructor
    · exact fun h => Or.inl h
    · rintro (h | ⟨-, pre, post, habs, -⟩)
      · exact h
      · have := congrArg List.length habs
        simp at this
        omega
  | cons x xs ih =>
    intro acc e
    rw [dedupAux]
    by_cases hc : (acc.any fun a => equationBEq a x) = true
    · rw [if_pos hc, ih acc e]
      obtain ⟨a, ha, hax⟩ := List.any_eq_true.mp hc
      constructor
      · rintro (h | ⟨hclean, pre, post, hxs, hpre⟩)
        · exact Or.inl h
        · refine Or.inr ⟨hclean, x :: pre, post, by rw [hxs, List.cons_append], ?_⟩
          intro y hy
          rcases List.mem_cons.mp hy with rfl | hy'
          · by_cases hxe : equationBEq y e = true
            · exact absurd (hclean a ha) (by rw [equationBEq_trans hax hxe]; simp)
            · exact bool_not_true hxe
          · exact hpre y hy'
      · rintro (h | ⟨hclean, pre, post, hxx, hpre⟩)
        · exact Or.inl h
        · cases pre with
          | nil =>
            rw [List.nil_append] at hxx
            injection hxx with h1 h2
            subst h1
            exact absurd (hclean a ha) (by rw [hax]; simp)
          | cons p₀ pre' =>
            rw [List.cons_append] at hxx
            injection hxx with h1 h2
            subst h1
            exact Or.inr ⟨hclean, pre', post, h2,
              fun y hy => hpre y (List.mem_cons_of_mem _ hy)⟩
    · rw [if_neg hc, ih (acc ++ [x]) e]
      constructor
      · rintro (h | ⟨hclean', pre, post, hxs, hpre⟩)
        · rcases List.mem_append.mp h with h' | h'
          · exact Or.inl h'
          · rw [List.mem_singleton] at h'
            subst h'
            refine Or.inr ⟨?_, [], xs, rfl, by simp⟩
            intro a ha
            by_cases hax : equationBEq a e = true
            · exact absurd (List.any_eq_true.mpr ⟨a, ha, hax⟩) hc
            · exact bool_not_true hax
        · refine Or.inr ⟨fun a ha => hclean' a (List.mem_append_left _ ha),
            x :: pre, post, by rw [hxs, List.cons_append], ?_⟩
          intro y hy
          rcases List.mem_cons.mp hy with rfl | hy'
          · exact hclean' y (List.mem_append_right _ (List.mem_singleton.mpr rfl))
          · exact hpre y hy'
      · rintro (h | ⟨hclean, pre, post, hxx, hpre⟩)
        · exact Or.inl (List.mem_append_left _ h)
        · cases pre with
          | nil =>
            rw [List.nil_append] at hxx
            injection hxx with h1 h2
            subst h1
            exact Or.inl (List.mem_append_right _ (List.mem_singleton.mpr rfl))
          | cons p₀ pre' =>
            rw [List.cons_append] at hxx
            injection hxx with h1 h2
            subst h1
            refine Or.inr ⟨?_, pre', post, h2,
              fun y hy => hpre y (List.mem_cons_of_mem _ hy)⟩
            intro a ha
            rcases List.mem_append.mp ha with h' | h'
            · exact hclean a h'
            · rw [List.mem_singleton] at h'
              subst h'
              exact hpre a (List.mem_cons_self _ _)

/-- C6 (claim): an `EquationSet` never holds two equations that are equal
under Equation-equality; an equation is a member of the constructed set
exactly when it occurs in the input list with no earlier entry
Equation-equal to it (so duplicates collapse to the first-inserted); and an
explicit `add_equation` of an equation already present under
Equation-equality is a no-op. -/
theorem c6_equation_set_dedup :
    (∀ (l : List Equation) (name : String),
      (mkEquationSet l name).equations.Pairwise (fun a b => equationBEq a b = false) ∧
      (∀ e, e ∈ (mkEquationSet l name).equations ↔
        ∃ pre post, l = pre ++ e :: post ∧ ∀ x ∈ pre, equationBEq x e = false)) ∧
    (∀ (s : EquationSet) (e : Equation),
      (∃ x ∈ s.equations, equationBEq x e = true) → add_equation s e = s) := by
  constructor
  · intro l name
    constructor
    · show (List.insertionSort eqNameLe (dedupAux [] l)).Pairwise _
      have hperm := List.perm_insertionSort eqNameLe (dedupAux [] l)
      have hsym : Symmetric (fun a b : Equation => equationBEq a b = false) := by
        intro a b hab
        by_cases h : equationBEq b a = true
        · exact absurd (equationBEq_symm h) (by rw [hab]; simp)
        · exact bool_not_true h
      refine (List.Perm.pairwise_iff ?_ hperm).mpr (dedupAux_pairwise l [] List.Pairwise.nil)
      intro x y h
      exact hsym h
    · intro e
      show e ∈ List.insertionSort eqNameLe (dedupAux [] l) ↔ _
      rw [List.mem_insertionSort, dedupAux_mem_iff l [] e]
      simp
  · intro s e h
    unfold add_equation
    rw [if_pos]
    rw [List.any_eq_true]
    obtain ⟨x, hx, hxe⟩ := h
    exact ⟨x, hx, hxe⟩

/-- Witness for C6: adding an equation that is already present (under a
different name) to a concrete set leaves the set unchanged. -/
theorem c6_equation_set_dedup_witness :
    add_equation (mkEquationSet [mkEquation "a" [⟨"t", "x", "+"⟩] [⟨"u", "y", "+"⟩]] "S")
        (mkEquation "zz" [⟨"t", "x", "+"⟩] [⟨"u", "y", "+"⟩]) =
      mkEquationSet [mkEquation "a" [⟨"t", "x", "+"⟩] [⟨"u", "y", "+"⟩]] "S" :=
  c6_equation_set_dedup.2 _ _ (by decide)

theorem insertTail_of_none {α : Type} (r : α → α → Prop) [DecidableRel r] {e : α} :
    ∀ (l : List α), (∀ b ∈ l, ¬ r b e) → insertTail r e l = e :: l
  | [], _ => rfl
  | b :: l, h => by rw [insertTail, if_neg (h b (List.mem_cons_self b l))]

theorem orderedInsert_min {α : Type} (r : α → α → Prop) [DecidableRel r] :
    ∀ (l : List α) (a : α), (∀ b ∈ l, r a b) → l.orderedInsert r a = a :: l
  | [], _, _ => rfl
  | b :: l, a, h => by rw [List.orderedInsert, if_pos (h b (List.mem_cons_self b l))]

theorem insertTail_append {α : Type} (r : α → α → Prop) [DecidableRel r] {e : α} :
    ∀ (before after : List α), (∀ x ∈ before, r x e) → (∀ y ∈ after, ¬ r y e) →
      insertTail r e (before ++ after) = before ++ e :: after
  | [], after, _, ha => by
    rw [List.nil_append, insertTail_of_none r after ha, List.nil_append]
  | x :: before, after, hb, ha => by
    rw [List.cons_append, insertTail, if_pos (hb x (List.mem_cons_self x before))]
    rw [insertTail_append r before after (fun y hy => hb y (List.mem_cons_of_mem _ hy)) ha,
      List.cons_append]

theorem insertionSort_append_singleton {α : Type} (r : α → α → Prop) [DecidableRel r]
    [IsTotal α r] [IsTrans α r] (e : α) :
    ∀ (l : List α), l.Sorted r → List.insertionSort r (l ++ [e]) = insertTail r e l
  | [], _ => rfl
  | a :: l, h => by
    have ha : ∀ b ∈ l, r a b := List.rel_of_sorted_cons h
    have hl : l.Sorted r := h.of_cons
    rw [List.cons_append, List.insertionSort]
    rw [insertionSort_append_singleton r e l hl]
    by_cases hae : r a e
    · conv_rhs => rw [insertTail]
      rw [if_pos hae]
      cases l with
      | nil =>
        show List.orderedInsert r a [e] = a :: [e]
        rw [List.orderedInsert, if_pos hae]
      | cons b l' =>
        by_cases hbe : r b e
        · rw [insertTail, if_pos hbe]
          rw [List.orderedInsert, if_pos (ha b (List.mem_cons_self b l'))]
        · rw [insertTail, if_neg hbe]
          rw [List.orderedInsert, if_pos hae]
    · conv_rhs => rw [insertTail]
      rw [if_neg hae]
      have hle : ∀ b ∈ l, ¬ r b e := fun b hb hbe => hae (IsTrans.trans a b e (ha b hb) hbe)
      rw [insertTail_of_none r l hle]
      rw [List.orderedInsert, if_neg hae]
      rw [orderedInsert_min r l a ha]

theorem removeFirst_insertTail (e : Equation) :
    ∀ l : List Equation, (∀ x ∈ l, equationBEq x e = false) →
      removeFirstEq e (insertTail eqNameLe e l) = l
  | [], _ => by
    show removeFirstEq e [e] = []
    rw [removeFirstEq, if_pos (equationBEq_refl e)]
  | x :: xs, h => by
    rw [insertTail]
    by_cases hxe : eqNameLe x e
    · rw [if_pos hxe, removeFirstEq,
        if_neg (by rw [h x (List.mem_cons_self x xs)]; simp)]
      rw [removeFirst_insertTail e xs (fun y hy => h y (List.mem_cons_of_mem _ hy))]
    · rw [if_neg hxe, removeFirstEq, if_pos (equationBEq_refl e)]

theorem removeFirst_append_middle {e f : Equation} (hfe : equationBEq f e = true) :
    ∀ (before after : List Equation), (∀ x ∈ before, equationBEq x e = false) →
      removeFirstEq e (before ++ f :: after) = before ++ after
  | [], after, _ => by
    rw [List.nil_append, removeFirstEq, if_pos hfe, List.nil_append]
  | x :: before, after, h => by
    rw [List.cons_append, removeFirstEq,
      if_neg (by rw [h x (List.mem_cons_self x before)]; simp)]
    rw [removeFirst_append_middle hfe before after
      (fun y hy => h y (List.mem_cons_of_mem _ hy)), List.cons_append]

theorem listEqBy_append_cons {e f : Equation} (hef : equationBEq e f = true) :
    ∀ (before after : List Equation),
      listEqBy equationBEq (before ++ e :: after) (before ++ f :: after) = true
  | [], after => by
    rw [List.nil_append, List.nil_append]
    show (equationBEq e f && listEqBy equationBEq after after) = true
    rw [hef, listEqBy_refl equationBEq_refl after]
    rfl
  | x :: before, after => by
    rw [List.cons_append, List.cons_append]
    show (equationBEq x x && _) = true
    rw [equationBEq_refl x, listEqBy_append_cons hef before after]
    rfl

/-- C7, counterexample to the claim as stated: for an equation already in the
set, `add` is a no-op and `remove` then strictly shrinks the set, so
add-then-remove does NOT return an equal set. -/
theorem c7_counterexample :
    (remove_equation
        (add_equation (mkEquationSet [mkEquation "a" [⟨"t", "x", "+"⟩] [⟨"u", "y", "+"⟩]] "S")
          (mkEquation "a" [⟨"t", "x", "+"⟩] [⟨"u", "y", "+"⟩]))
        (mkEquation "a" [⟨"t", "x", "+"⟩] [⟨"u", "y", "+"⟩])).map
      (fun s' => setEq s' (mkEquationSet [mkEquation "a" [⟨"t", "x", "+"⟩] [⟨"u", "y", "+"⟩]] "S")) =
      some false := by
  decide

/-- C7 (amended): (a) when no member of the (name-sorted) set is
Equation-equal to `e`, adding `e` and then removing it returns the set
unchanged (even as the identical object); (b) when a member `f` is
Equation-equal to `e`, removal-then-add returns an equal set provided the
set's equation names are pairwise distinct and `f` carries the same name as
`e` — without those provisos the re-inserted equation can be sorted to a
different position and the sets compare unequal, and when `e` is already a
member add-then-remove strictly shrinks the set (see the counterexample). -/
theorem c7_add_remove_inverse :
    (∀ (s : EquationSet) (e : Equation), s.equations.Sorted eqNameLe →
      (∀ x ∈ s.equations, equationBEq x e = false) →
      remove_equation (add_equation s e) e = some s) ∧
    (∀ (name : String) (before after : List Equation) (f e : Equation),
      (before ++ f :: after).Sorted eqNameLe →
      ((before ++ f :: after).map Equation.name).Nodup →
      (before ++ f :: after).Pairwise (fun a b => equationBEq a b = false) →
      equationBEq f e = true → f.name = e.name →
      ∃ s', remove_equation ⟨name, before ++ f :: after⟩ e = some s' ∧
        setEq (add_equation s' e) ⟨name, before ++ f :: after⟩ = true) := by
  constructor
  · intro s e hsort h
    have hno : ¬((s.equations.any fun x => equationBEq x e) = true) := by
      intro hany
      obtain ⟨x, hx, hxe⟩ := List.any_eq_true.mp hany
      rw [h x hx] at hxe
      exact Bool.noConfusion hxe
    have hcond : ((List.insertionSort eqNameLe (s.equations ++ [e])).any
        fun x => equationBEq x e) = true :=
      List.any_eq_true.mpr ⟨e,
        (List.mem_insertionSort _).mpr (List.mem_append_right _ (List.mem_singleton.mpr rfl)),
        equationBEq_refl e⟩
    unfold add_equation
    rw [if_neg hno]
    unfold remove_equation
    dsimp only
    rw [if_pos hcond]
    have hins := insertionSort_append_singleton eqNameLe e s.equations hsort
    rw [hins, removeFirst_insertTail e s.equations h]
  · intro name before after f e hsort hnames hpair hfe hname
    have hpair' := hpair
    rw [List.pairwise_append] at hpair'
    have hbeforeclean : ∀ x ∈ before, equationBEq x e = false := by
      intro x hx
      by_cases hxe : equationBEq x e = true
      · have hxf : equationBEq x f = true := equationBEq_trans hxe (equationBEq_symm hfe)
        have hfalse : equationBEq x f = false :=
          hpair'.2.2 x hx f (List.mem_cons_self f after)
        rw [hfalse] at hxf
        exact Bool.noConfusion hxf
      · exact bool_not_true hxe
    have hafterclean : ∀ y ∈ after, equationBEq y e = false := by
      intro y hy
      by_cases hye : equationBEq y e = true
      · have hfy : equationBEq f y = false := List.rel_of_pairwise_cons hpair'.2.1 hy
        have : equationBEq f y = true :=
          equationBEq_symm (equationBEq_trans hye (equationBEq_symm hfe))
        rw [hfy] at this
        exact Bool.noConfusion this
      · exact bool_not_true hye
    have hsort' : List.Pairwise eqNameLe before ∧ List.Pairwise eqNameLe (f :: after) ∧
        ∀ a ∈ before, ∀ b ∈ f :: after, eqNameLe a b := by
      rw [← List.pairwise_append]
      exact hsort
    refine Exists.intro (EquationSet.mk name (before ++ after)) ⟨?_, ?_⟩
    · have hcond : ((before ++ f :: after).any fun x => equationBEq x e) = true :=
        List.any_eq_true.mpr ⟨f, List.mem_append_right _ (List.mem_cons_self f after), hfe⟩
      unfold remove_equation
      dsimp only
      rw [if_pos hcond, removeFirst_append_middle hfe before after hbeforeclean]
    · unfold add_equation
      dsimp only
      rw [if_neg (by
        intro hany
        obtain ⟨x, hx, hxe⟩ := List.any_eq_true.mp hany
        rcases List.mem_append.mp hx with h' | h'
        · rw [hbeforeclean x h'] at hxe
          exact Bool.noConfusion hxe
        · rw [hafterclean x h'] at hxe
          exact Bool.noConfusion hxe)]
      have hsorted' : (before ++ after).Sorted eqNameLe := by
        show List.Pairwise eqNameLe (before ++ after)
        rw [List.pairwise_append]
        exact ⟨hsort'.1, hsort'.2.1.tail,
          fun x hx y hy => hsort'.2.2 x hx y (List.mem_cons_of_mem f hy)⟩
      have hble : ∀ x ∈ before, eqNameLe x e := by
        intro x hx
        have hxf : eqNameLe x f := hsort'.2.2 x hx f (List.mem_cons_self f after)
        show strLeb x.name e.name = true
        rw [← hname]
        exact hxf
      have hnle : ∀ y ∈ after, ¬ eqNameLe y e := by
        intro y hy h
        have hfy : eqNameLe f y := List.rel_of_pairwise_cons hsort'.2.1 hy
        have h' : strLeb y.name f.name = true := by
          rw [hname]
          exact h
        have heq : y.name = f.name := strLeb_antisymm h' hfy
        have hnodup : f.name ∉ after.map Equation.name := by
          rw [List.map_append, List.map_cons] at hnames
          have := (List.Nodup.sublist (List.sublist_append_right _ _) hnames)
          exact (List.nodup_cons.mp this).1
        exact hnodup (heq ▸ List.mem_map_of_mem Equation.name hy)
      rw [insertionSort_append_singleton eqNameLe e (before ++ after) hsorted']
      rw [insertTail_append eqNameLe before after hble hnle]
      exact listEqBy_append_cons (equationBEq_symm hfe) before after

/-- Witness for C7: both parts applied to concrete sets — adding then
removing a fresh equation restores the singleton set, and removing then
re-adding a same-named Equation-equal member restores an equal three-element
set. -/
theorem c7_add_remove_inverse_witness :
    (remove_equation
        (add_equation ⟨"S", [mkEquation "a" [⟨"1", "p", "+"⟩] [⟨"2", "q", "+"⟩]]⟩
          (mkEquation "b" [⟨"3", "r", "+"⟩] [⟨"4", "s", "+"⟩]))
        (mkEquation "b" [⟨"3", "r", "+"⟩] [⟨"4", "s", "+"⟩]) =
      some ⟨"S", [mkEquation "a" [⟨"1", "p", "+"⟩] [⟨"2", "q", "+"⟩]]⟩) ∧
    (∃ s', remove_equation ⟨"S",
        [mkEquation "a" [⟨"1", "p", "+"⟩] [⟨"2", "q", "+"⟩]] ++
          mkEquation "b" [⟨"3", "r", "+"⟩] [⟨"4", "s", "+"⟩] ::
            [mkEquation "c" [⟨"5", "t", "+"⟩] [⟨"6", "u", "+"⟩]]⟩
        (mkEquation "b" [⟨"7", "r", "+"⟩] [⟨"8", "s", "+"⟩]) = some s' ∧
      setEq (add_equation s' (mkEquation "b" [⟨"7", "r", "+"⟩] [⟨"8", "s", "+"⟩]))
        ⟨"S", [mkEquation "a" [⟨"1", "p", "+"⟩] [⟨"2", "q", "+"⟩]] ++
          mkEquation "b" [⟨"3", "r", "+"⟩] [⟨"4", "s", "+"⟩] ::
            [mkEquation "c" [⟨"5", "t", "+"⟩] [⟨"6", "u", "+"⟩]]⟩ = true) :=
  ⟨c7_add_remove_inverse.1 _ _ (by decide) (by decide),
   c7_add_remove_inverse.2 "S" _ _ _ _ (by decide) (by decide) (by decide)
     (by decide) (by decide)⟩

/-- C2: the placement invariant is violated by the code on a reachable event
sequence.  In `c2Events`, the incorrect-submission fallback moves token 0
from slot 0 back to a grid cell but never updates its `origin_*` fields (the
`else` branch of main.py lines 302-311 sets `pos_key`, `rect` and
`container` only), so a later failed drop rolls token 0 back into slot 0,
overwriting token 1: afterwards slot 0 holds token 0, the whole grid is
empty, and token 1 — still in play and not dragging — occupies no container
at all, contradicting the claimed "every token that is not mid-drag occupies
exactly one container". -/
theorem c2_placement_invariant_violation :
    c2Final.slots = [some 0, none, none, none, none, none, none, none] ∧
    c2Final.grid = [[none, none, none, none], [none, none, none, none],
      [none, none, none, none], [none, none, none, none]] ∧
    (c2Final.toks.get? 1).map TokenState.dragging = some false ∧
    (c2Final.toks.get? 1).map TokenState.container = some "slot" ∧
    (c2Final.toks.get? 1).map TokenState.pos_key = some (Key.slot 0) ∧
    1 ∈ c2Final.inPlay := by
  refine ⟨?_, ?_, ?_, ?_, ?_, ?_⟩ <;> decide

end Equatio
